import Mathlib

/-!
Shallow embedding of the `elm-ui` core (crates/elm-ui/src/lib.rs and
crates/elm-ui/src/future_ext.rs): the message/command algebra, the
cancellation-token registry, the dispatcher's message handling
(`handle_msg`, `handle_cmd`, `handle_sequence_cmd`), the dispatcher loop
skeleton, the program driver (`run`, `update`, `handle_update`), and the
shutdown-cancel future combinator.

Modelling conventions:
- An effect function `FnOnce(Sender<Command>, CancellationToken) -> Option<Message>`
  is modelled by the optional message it yields when executed.
- `HashMap<String, CancellationToken>` is modelled by an association list
  `List (String × Bool)` mapping group name to the token's fired state
  (a `CancellationToken` is a monotonic latch, so its observable state is
  a `Bool`); `registerCmd` mirrors the insert-if-absent in the dispatcher
  loop, and `.get(..).unwrap()` panics are modelled by `Option`/`none`.
- `Stream` carries a finite list of messages (a drained prefix of the
  stream); `Custom(Box<dyn Any>)` and `TermEvent` payloads are opaque `Nat`s.
- Channel sends are collected into output lists, in send order.
-/

mutual

inductive Message : Type where
  | batch : List Command → Message
  | sequence : List Command → Message
  | stream : List Message → Message
  | termEvent : Nat → Message
  | quit : Message
  | cancelAll : Message
  | cancel : String → Message
  | cancellationComplete : Option String → Message
  | custom : Nat → Message

inductive CommandFn : Type where
  | async : Option Message → CommandFn
  | blocking : Option Message → CommandFn

inductive Command : Type where
  | mk : String → CommandFn → Command

end

/-- The group name of a command (`Command.name` field in the source). -/
def Command.name : Command → String
  | .mk n _ => n

/-- The effect function of a command (`Command.func` field in the source). -/
def Command.func : Command → CommandFn
  | .mk _ f => f

/-- Executing an effect function yields its optional message; `Async` and
`Blocking` effects yield the same observable result in this embedding. -/
def CommandFn.result : CommandFn → Option Message
  | .async m => m
  | .blocking m => m

/-- The optional message produced by running a command's effect. -/
def Command.result (c : Command) : Option Message :=
  c.func.result

/-- `Message::Quit` discriminator (`if let Message::Quit = msg`). -/
def Message.isQuit : Message → Bool
  | .quit => true
  | _ => false

/-- The cancellation registry `Arc<Mutex<HashMap<String, CancellationToken>>>`:
an association list from group name to the token's fired state. -/
abbrev Registry : Type := List (String × Bool)

/-- `cancellation_tokens.get(&name)`: look up the token for a group name. -/
def lookupToken : Registry → String → Option Bool
  | [], _ => none
  | (n, b) :: rest, name => if n = name then some b else lookupToken rest name

/-- The insert-if-absent step in the dispatcher loop (lib.rs lines 299-303):
`if !cancellation_tokens.contains_key(&cmd.name) { insert(name, CancellationToken::new()) }`. -/
def registerCmd (reg : Registry) (name : String) : Registry :=
  if (lookupToken reg name).isSome then reg else reg ++ [(name, false)]

/-- `token.cancel()` for every token in the registry (`CancelAll`, shutdown). -/
def fireAll (reg : Registry) : Registry :=
  reg.map fun p => (p.1, true)

/-- `if let Some(token) = cancellation_tokens.get(&name) { token.cancel() }`:
fire the token for one name when present, no-op when absent. -/
def fireToken (reg : Registry) (name : String) : Registry :=
  reg.map fun p => if p.1 = name then (p.1, true) else p

/-- `handle_sequence_cmd` (lib.rs lines 508-547): run the commands one at a
time; for each, clone its group token via `.get(&command.name).unwrap()`
(modelled: `none` = panic), execute the effect, and if it yields a message
send it on `msg` before the next command starts.  The returned list is the
sequence of messages sent on `msg`, in send order. -/
def handle_sequence_cmd (reg : Registry) : List Command → Option (List Message)
  | [] => some []
  | c :: rest =>
    match lookupToken reg c.name with
    | none => none
    | some _tok =>
      match c.result with
      | some m => (handle_sequence_cmd reg rest).map fun ms => m :: ms
      | none => handle_sequence_cmd reg rest

/-- What one call of the dispatcher's message-handling routine did: the
registry (token states) afterwards, the messages sent on `msg` (in order),
and the commands forwarded on `cmd` (in order). -/
structure HandleResult where
  reg : Registry
  emitted : List Message
  forwarded : List Command

mutual

/-- `handle_msg` (lib.rs lines 436-506): route an optional message produced
by an effect.  `Batch` forwards its commands on `cmd`; `Sequence` spawns
`handle_sequence_cmd` (awaited before the routine returns, so its sends are
part of this result); `Stream` recursively routes each streamed message;
`CancelAll` fires every token then sends `CancellationComplete(None)`;
`Cancel(name)` fires the token for `name` when present then sends
`CancellationComplete(Some(name))`; any other message is sent on `msg`
unchanged; `None` is a no-op.  `none` models a panic inside
`handle_sequence_cmd`. -/
def handle_msg (reg : Registry) : Option Message → Option HandleResult
  | none => some ⟨reg, [], []⟩
  | some (Message.batch cmds) => some ⟨reg, [], cmds⟩
  | some (Message.sequence cmds) =>
      (handle_sequence_cmd reg cmds).map fun msgs => ⟨reg, msgs, []⟩
  | some (Message.stream msgs) => handle_stream reg msgs
  | some Message.cancelAll =>
      some ⟨fireAll reg, [Message.cancellationComplete none], []⟩
  | some (Message.cancel name) =>
      some ⟨fireToken reg name, [Message.cancellationComplete (some name)], []⟩
  | some m => some ⟨reg, [m], []⟩
termination_by om => sizeOf om
decreasing_by
  all_goals simp_wf
  all_goals omega

/-- The `Stream` worker (lib.rs lines 459-475): pull each message from the
stream and recursively route it through `handle_msg`. -/
def handle_stream (reg : Registry) : List Message → Option HandleResult
  | [] => some ⟨reg, [], []⟩
  | m :: rest =>
    match handle_msg reg (some m) with
    | none => none
    | some r =>
      match handle_stream r.reg rest with
      | none => none
      | some r2 => some ⟨r2.reg, r.emitted ++ r2.emitted, r.forwarded ++ r2.forwarded⟩
termination_by ms => sizeOf ms
decreasing_by
  all_goals simp_wf
  all_goals (have hpos : 0 < sizeOf rest := by cases rest <;> simp_arith)
  all_goals omega

end

/-- `handle_cmd` (lib.rs lines 398-433): clone the command's group token via
`cancellation_tokens.get(&cmd.name).unwrap()` (modelled: `none` = panic),
then spawn a task that executes the effect and routes the produced message
through `handle_msg`. -/
def handle_cmd (reg : Registry) (c : Command) : Option HandleResult :=
  match lookupToken reg c.name with
  | none => none
  | some _tok => handle_msg reg c.result

/-- The dispatcher loop's command arm (lib.rs lines 297-311): insert a fresh
token for the command's name when absent, then call `handle_cmd`. -/
def dispatch_cmd (reg : Registry) (c : Command) : Option HandleResult :=
  handle_cmd (registerCmd reg c.name) c

/-- State of the dispatcher loop spawned by `spawn_message_handler`
(lib.rs lines 284-331): the in-flight task count tracked by
`FuturesUnorderedCounter` and the handler cancellation token's state. -/
structure DispatcherState where
  inFlight : Nat
  cancelled : Bool

/-- One `tokio::select!` wake-up of the dispatcher loop, or the external
firing of the handler cancellation token by `shutdown`. -/
inductive DispatcherEvent where
  | cmdArrived
  | taskCompleted (ok : Bool)
  | tokenFired
  | cancelledArm

/-- Outcome of one dispatcher loop iteration: keep looping, `break` out of
the loop normally, or return early with an error (the `?` on a failed
task-join result). -/
inductive StepResult where
  | running (s : DispatcherState)
  | exited (s : DispatcherState)
  | failed (s : DispatcherState)

/-- One iteration of the dispatcher `loop` (lib.rs lines 295-325).
`cmdArrived`: a command was received, a task spawned (`futs.push`).
`taskCompleted ok`: `futs.next()` yielded a finished task (count already
decremented); a failed join propagates an error, otherwise `break` when
the token is cancelled and the set is empty.  `tokenFired`: `shutdown`
fired the handler token.  `cancelledArm`: the `cancellation_token.cancelled()`
select arm fired (only possible once the token is cancelled); `break`
when the in-flight set is empty. -/
def dispatcherStep (s : DispatcherState) : DispatcherEvent → StepResult
  | .cmdArrived => .running ⟨s.inFlight + 1, s.cancelled⟩
  | .taskCompleted ok =>
      let s2 : DispatcherState := ⟨s.inFlight - 1, s.cancelled⟩
      if !ok then .failed s2
      else if s2.cancelled ∧ s2.inFlight = 0 then .exited s2 else .running s2
  | .tokenFired => .running ⟨s.inFlight, true⟩
  | .cancelledArm =>
      if s.cancelled ∧ s.inFlight = 0 then .exited s else .running s

/-- `QuitBehavior` (lib.rs lines 376-380). -/
inductive QuitBehavior where
  | Quit
  | Continue
deriving DecidableEq

/-- `MessageError` (lib.rs lines 382-388). -/
inductive MessageError where
  | sendFailure : String → MessageError
  | joinFailure : MessageError

/-- `ProgramError` (lib.rs lines 390-396). -/
inductive ProgramError (E : Type) where
  | messageFailure : MessageError → ProgramError E
  | applicationFailure : E → ProgramError E

/-- The `Model` trait (lib.rs lines 126-133): `init` and `update` may
mutate the model state and return an optional command; `view` renders into
the writer (modelled as returning the new writer value). -/
structure ModelSpec (S W E : Type) where
  init : S → Except E (S × Option Command)
  update : S → Message → Except E (S × Option Command)
  view : S → W → Except E W

/-- Observable driver events: calls of `model.init`, `model.view`,
`model.update` (with the delivered message), and of `Program::shutdown`. -/
inductive Ev where
  | initCall
  | viewCall
  | updateCall (m : Message)
  | shutdownCall

/-- `Program::handle_update` (lib.rs lines 333-347): a `Quit` message makes
the driver return `QuitBehavior::Quit` at once, without calling
`model.update`; any other message is passed to `model.update`, whose
optional command is sent on `cmd` (collected in the returned list).  The
second component is the trace of model calls made. -/
def Program.handle_update {S W E : Type} (M : ModelSpec S W E) (s : S) (m : Message) :
    Except (ProgramError E) (QuitBehavior × S × List Command) × List Ev :=
  if m.isQuit then (Except.ok (QuitBehavior.Quit, s, []), [])
  else
    match M.update s m with
    | Except.error e => (Except.error (ProgramError.applicationFailure e), [Ev.updateCall m])
    | Except.ok (s2, c) => (Except.ok (QuitBehavior.Continue, s2, c.toList), [Ev.updateCall m])

/-- The `while let Ok(msg) = self.msg_rx.try_recv()` drain loop inside
`Program::update` (lib.rs lines 250-254): apply queued messages in FIFO
order, stopping at the first `Quit`.  Returns the quit behavior, the new
model state, how many queued messages were consumed, and the commands sent
on `cmd`, plus the trace. -/
def Program.drain {S W E : Type} (M : ModelSpec S W E) (s : S) :
    List Message → Except (ProgramError E) (QuitBehavior × S × Nat × List Command) × List Ev
  | [] => (Except.ok (QuitBehavior.Continue, s, 0, []), [])
  | m :: rest =>
    match Program.handle_update M s m with
    | (Except.error e, evs) => (Except.error e, evs)
    | (Except.ok (QuitBehavior.Quit, s2, cs), evs) =>
        (Except.ok (QuitBehavior.Quit, s2, 1, cs), evs)
    | (Except.ok (QuitBehavior.Continue, s2, cs), evs) =>
        match Program.drain M s2 rest with
        | (Except.error e, evs2) => (Except.error e, evs ++ evs2)
        | (Except.ok (qb, s3, n, cs2), evs2) =>
            (Except.ok (qb, s3, n + 1, cs ++ cs2), evs ++ evs2)

/-- `Program::update` (lib.rs lines 246-256): apply the received message via
`handle_update`; when it returns `Continue`, drain already-queued messages.
The `Nat` is how many queued messages were consumed. -/
def Program.update {S W E : Type} (M : ModelSpec S W E) (s : S) (m : Message)
    (q : List Message) :
    Except (ProgramError E) (QuitBehavior × S × Nat × List Command) × List Ev :=
  match Program.handle_update M s m with
  | (Except.error e, evs) => (Except.error e, evs)
  | (Except.ok (QuitBehavior.Quit, s2, cs), evs) =>
      (Except.ok (QuitBehavior.Quit, s2, 0, cs), evs)
  | (Except.ok (QuitBehavior.Continue, s2, cs), evs) =>
      match Program.drain M s2 q with
      | (Except.error e, evs2) => (Except.error e, evs ++ evs2)
      | (Except.ok (qb, s3, n, cs2), evs2) =>
          (Except.ok (qb, s3, n, cs ++ cs2), evs ++ evs2)

/-- `Program::initialize` (lib.rs lines 223-244): spawn the handler tasks,
call `model.init`, and send its optional command on `cmd`; an init error
surfaces as `ApplicationFailure` before any view or update call. -/
def Program.initStep {S W E : Type} (M : ModelSpec S W E) (s : S) :
    Except (ProgramError E) (S × List Command) × List Ev :=
  match M.init s with
  | Except.error e => (Except.error (ProgramError.applicationFailure e), [Ev.initCall])
  | Except.ok (s2, c) => (Except.ok (s2, c.toList), [Ev.initCall])

/-- The `while let Some(msg) = self.recv_msg().await` loop of `Program::run`
(lib.rs lines 180-187), over a delivery schedule of the `msg` channel: each
iteration receives one message `m` with the list of messages already queued
behind it at that moment, calls `Program::update` (which drains the queued
ones), renders, and on `Quit` calls `shutdown` and returns the model; when
the channel closes (schedule exhausted) the loop exits and the model is
returned without calling `shutdown`. -/
def Program.runLoop {S W E : Type} (M : ModelSpec S W E) (s : S) (w : W) :
    List (Message × List Message) → Except (ProgramError E) (S × W) × List Ev
  | [] => (Except.ok (s, w), [])
  | (m, queued) :: rest =>
    match Program.update M s m queued with
    | (Except.error e, evs) => (Except.error e, evs)
    | (Except.ok (qb, s2, _n, _cs), evs) =>
      match M.view s2 w with
      | Except.error e =>
          (Except.error (ProgramError.applicationFailure e), evs ++ [Ev.viewCall])
      | Except.ok w2 =>
        if qb = QuitBehavior.Quit then
          (Except.ok (s2, w2), evs ++ [Ev.viewCall, Ev.shutdownCall])
        else
          match Program.runLoop M s2 w2 rest with
          | (Except.error e, evs2) => (Except.error e, evs ++ [Ev.viewCall] ++ evs2)
          | (Except.ok r, evs2) => (Except.ok r, evs ++ [Ev.viewCall] ++ evs2)

/-- `Program::run` (lib.rs lines 176-189): initialize, render once, then
`runLoop`. -/
def Program.run {S W E : Type} (M : ModelSpec S W E) (s : S) (w : W)
    (q : List (Message × List Message)) : Except (ProgramError E) (S × W) × List Ev :=
  match Program.initStep M s with
  | (Except.error e, evs) => (Except.error e, evs)
  | (Except.ok (s2, _cs), evs) =>
    match M.view s2 w with
    | Except.error e => (Except.error (ProgramError.applicationFailure e), evs ++ [Ev.viewCall])
    | Except.ok w2 =>
      match Program.runLoop M s2 w2 q with
      | (res, evs2) => (res, evs ++ [Ev.viewCall] ++ evs2)

/-- Poll state of a future (`std::task::Poll`). -/
inductive Poll (A : Type) where
  | ready (a : A)
  | pending

/-- The `CancelledByShutdown` sentinel (future_ext.rs lines 10-12). -/
inductive CancelledByShutdown where
  | mk

/-- `CancelOnShutdownFuture::poll` (future_ext.rs lines 24-40): poll the
cancellation future first and resolve to `Err(CancelledByShutdown)` when it
is ready; otherwise mirror the inner future's poll, wrapping a ready output
in `Ok`. -/
def cancelOnShutdownPoll {A : Type} (cancellation : Poll Unit) (inner : Poll A) :
    Poll (Except CancelledByShutdown A) :=
  match cancellation with
  | .ready _ => .ready (.error CancelledByShutdown.mk)
  | .pending =>
    match inner with
    | .ready a => .ready (.ok a)
    | .pending => .pending

/-- Concrete application model used to instantiate driver theorems: counts
updates in the state and renders by bumping the writer. -/
def tickModel : ModelSpec Nat Nat String :=
  ⟨fun s => Except.ok (s, none),
   fun s _ => Except.ok (s + 1, none),
   fun _ w => Except.ok (w + 1)⟩

/-- Concrete application model whose `init` fails. -/
def failModel : ModelSpec Nat Nat String :=
  ⟨fun _ => Except.error "boom",
   fun s _ => Except.ok (s, none),
   fun _ w => Except.ok w⟩

/-! ## Helper lemmas -/

/-- Looking up a name in an association list that ends with an entry for
that name succeeds. -/
theorem lookupToken_append_single (reg : Registry) (name : String) (b : Bool) :
    (lookupToken (reg ++ [(name, b)]) name).isSome = true := by
  induction reg with
  | nil => simp [lookupToken]
  | cons p rest ih =>
    obtain ⟨n, b2⟩ := p
    by_cases hn : n = name
    · simp [lookupToken, hn]
    · simp [lookupToken, hn, ih]

/-- After the dispatcher's insert-if-absent step, the lookup for the
inserted name succeeds. -/
theorem lookupToken_registerCmd_self (reg : Registry) (name : String) :
    (lookupToken (registerCmd reg name) name).isSome = true := by
  unfold registerCmd
  cases hl : lookupToken reg name with
  | none => simp [hl, lookupToken_append_single]
  | some b => simp [hl]

/-- When every sequence element's name has a registry entry,
`handle_sequence_cmd` does not panic. -/
theorem handle_sequence_cmd_total (reg : Registry) (cmds : List Command)
    (h : ∀ c ∈ cmds, (lookupToken reg c.name).isSome = true) :
    (handle_sequence_cmd reg cmds).isSome = true := by
  induction cmds with
  | nil => simp [handle_sequence_cmd]
  | cons c rest ih =>
    have hc := h c (by simp)
    obtain ⟨b, hb⟩ := Option.isSome_iff_exists.mp hc
    have hrest := ih fun x hx => h x (by simp [hx])
    cases hr : c.result with
    | none => simp [handle_sequence_cmd, hb, hr, hrest]
    | some m =>
      obtain ⟨ms, hms⟩ := Option.isSome_iff_exists.mp hrest
      simp [handle_sequence_cmd, hb, hr, hms]

/-- Firing the token of a name that has no registry entry leaves the
registry unchanged. -/
theorem fireToken_absent (reg : Registry) (name : String)
    (h : lookupToken reg name = none) : fireToken reg name = reg := by
  induction reg with
  | nil => rfl
  | cons p rest ih =>
    obtain ⟨n, b⟩ := p
    by_cases hn : n = name
    · simp [lookupToken, hn] at h
    · simp [lookupToken, hn] at h
      simp [fireToken, hn] at ih ⊢
      exact ih h

/-! ## Claims -/

/-- Claim C1: for every `Sequence([c1, ..., cn])` message, the dispatcher's
sequence worker executes the commands strictly one at a time, sending each
produced message on `msg` before the next command starts, so the messages
sent on `msg` are exactly the commands' produced messages in sequence
order `m1, ..., mn`. -/
theorem c1_sequence_messages_in_order (reg : Registry) (cmds : List Command)
    (msgs : List Message) (h : handle_sequence_cmd reg cmds = some msgs) :
    msgs = cmds.filterMap Command.result := by
  induction cmds generalizing msgs with
  | nil =>
    simp [handle_sequence_cmd] at h
    simp [← h]
  | cons c rest ih =>
    cases hl : lookupToken reg c.name with
    | none => simp [handle_sequence_cmd, hl] at h
    | some tok =>
      cases hr : c.result with
      | none =>
        simp [handle_sequence_cmd, hl, hr] at h
        simpa [List.filterMap_cons, hr] using ih msgs h
      | some m =>
        cases hs : handle_sequence_cmd reg rest with
        | none => simp [handle_sequence_cmd, hl, hr, hs] at h
        | some ms =>
          simp [handle_sequence_cmd, hl, hr, hs] at h
          simp [List.filterMap_cons, hr, ← h, ih ms hs]

/-- Witness for C1 at a concrete three-element sequence. -/
theorem c1_sequence_messages_in_order_witness :
    [Message.custom 1, Message.custom 2, Message.custom 3] =
      List.filterMap Command.result
        [Command.mk "" (CommandFn.async (some (Message.custom 1))),
         Command.mk "" (CommandFn.blocking (some (Message.custom 2))),
         Command.mk "" (CommandFn.async (some (Message.custom 3)))] :=
  c1_sequence_messages_in_order [("", false)]
    [Command.mk "" (CommandFn.async (some (Message.custom 1))),
     Command.mk "" (CommandFn.blocking (some (Message.custom 2))),
     Command.mk "" (CommandFn.async (some (Message.custom 3)))]
    [Message.custom 1, Message.custom 2, Message.custom 3] rfl

/-- Counterexample to claim C2: a command executed as an element of a
`Sequence` message whose group name has no registry entry makes the signal
lookup in `handle_sequence_cmd` fail (`.get(..).unwrap()` panics); the
dispatcher inserts no entry on this path. -/
theorem c2_counterexample :
    handle_sequence_cmd [] [Command.mk "named" (CommandFn.async (some (Message.custom 0)))] =
      none := rfl

/-- Claim C2 (amended): for a command arriving on the command channel the
dispatcher inserts a fresh signal for an absent name before running the
command, so the lookup in `handle_cmd` never fails; for a command executed
as an element of a `Sequence` message no insertion happens, and the lookup
succeeds when (and only when) the element's name already has an entry. -/
theorem c2_amended_registration (reg : Registry) (c : Command) (cmds : List Command)
    (h : ∀ x ∈ cmds, (lookupToken reg x.name).isSome = true) :
    (lookupToken (registerCmd reg c.name) c.name).isSome = true ∧
    (handle_sequence_cmd reg cmds).isSome = true :=
  ⟨lookupToken_registerCmd_self reg c.name, handle_sequence_cmd_total reg cmds h⟩

/-- Witness for the amended C2 at concrete inputs. -/
theorem c2_amended_registration_witness :
    (lookupToken (registerCmd [("", false)] "tick") "tick").isSome = true ∧
    (handle_sequence_cmd [("", false)]
      [Command.mk "" (CommandFn.async (some (Message.custom 7)))]).isSome = true :=
  c2_amended_registration [("", false)] (Command.mk "tick" (CommandFn.async none))
    [Command.mk "" (CommandFn.async (some (Message.custom 7)))]
    (by intro x hx; simp at hx; subst hx; rfl)

/-- Claim C3: every `CancelAll` or `Cancel(name)` processed by `handle_msg`
produces exactly one `CancellationComplete` with the matching argument
(`None` for `CancelAll`, `Some(name)` for `Cancel(name)`), sent on `msg`
with the corresponding signals already fired in the resulting registry; a
`Cancel(name)` whose name has no entry fires no signal but still sends the
acknowledgement. -/
theorem c3_cancellation_ack (reg : Registry) (name : String) :
    handle_msg reg (some Message.cancelAll) =
      some ⟨fireAll reg, [Message.cancellationComplete none], []⟩ ∧
    handle_msg reg (some (Message.cancel name)) =
      some ⟨fireToken reg name, [Message.cancellationComplete (some name)], []⟩ ∧
    (lookupToken reg name = none → fireToken reg name = reg) :=
  ⟨by simp [handle_msg], by simp [handle_msg], fireToken_absent reg name⟩

/-- Witness for C3: cancelling an absent name on a concrete registry still
produces the acknowledgement and fires nothing. -/
theorem c3_cancellation_ack_witness :
    handle_msg [("a", false)] (some (Message.cancel "b")) =
      some ⟨fireToken [("a", false)] "b", [Message.cancellationComplete (some "b")], []⟩ ∧
    fireToken [("a", false)] "b" = [("a", false)] :=
  ⟨(c3_cancellation_ack [("a", false)] "b").2.1,
   (c3_cancellation_ack [("a", false)] "b").2.2 (by decide)⟩

/-- Counterexample to claim C6: when a tracked task's join result is an
error, the `?` operator makes the dispatcher task return early even though
another task is still in flight and the handler cancellation signal has not
fired — so the dispatcher can terminate with a non-empty in-flight set. -/
theorem c6_counterexample :
    dispatcherStep ⟨2, false⟩ (DispatcherEvent.taskCompleted false) =
      StepResult.failed ⟨1, false⟩ ∧ (1 : Nat) ≠ 0 :=
  ⟨rfl, by decide⟩

/-- Claim C6 (amended): the dispatcher loop `break`s (exits normally) only
in a state where the handler cancellation signal has fired and the
in-flight set is empty; a failed task join makes it return an error early,
possibly with tasks still in flight. -/
theorem c6_amended_dispatcher_exit (s s2 : DispatcherState) (e : DispatcherEvent)
    (h : dispatcherStep s e = StepResult.exited s2) :
    s2.inFlight = 0 ∧ s2.cancelled = true := by
  cases e with
  | cmdArrived => simp [dispatcherStep] at h
  | taskCompleted ok =>
    simp only [dispatcherStep] at h
    split at h
    · exact absurd h (by simp)
    · split at h
      · rename_i hcond
        cases h
        exact ⟨hcond.2, hcond.1⟩
      · exact absurd h (by simp)
  | tokenFired => simp [dispatcherStep] at h
  | cancelledArm =>
    simp only [dispatcherStep] at h
    split at h
    · rename_i hcond
      cases h
      exact ⟨hcond.2, hcond.1⟩
    · exact absurd h (by simp)

/-- Witness for the amended C6: the last in-flight task completing after
the signal has fired makes the loop exit with an empty in-flight set. -/
theorem c6_amended_dispatcher_exit_witness :
    (⟨0, true⟩ : DispatcherState).inFlight = 0 ∧
    (⟨0, true⟩ : DispatcherState).cancelled = true :=
  c6_amended_dispatcher_exit ⟨1, true⟩ ⟨0, true⟩ (DispatcherEvent.taskCompleted true)
    (by simp [dispatcherStep])

/-- Claim C8: on every poll of the shutdown-cancel combinator, if the
cancellation signal is ready the combinator resolves to the
`CancelledByShutdown` sentinel even when the inner future is
simultaneously ready; otherwise it resolves to the inner future's output
exactly when the inner future is ready. -/
theorem c8_cancel_on_shutdown_poll (A : Type) (inner : Poll A) :
    cancelOnShutdownPoll (Poll.ready ()) inner =
      Poll.ready (Except.error CancelledByShutdown.mk) ∧
    (∀ a : A, cancelOnShutdownPoll Poll.pending (Poll.ready a) = Poll.ready (Except.ok a)) ∧
    cancelOnShutdownPoll Poll.pending (Poll.pending : Poll A) = Poll.pending :=
  ⟨rfl, fun _ => rfl, rfl⟩

/-- Claim C10: a message produced by a command executed inside a `Sequence`
is sent directly on the `msg` channel: whatever the produced message is —
including `Batch`, `Sequence`, `Stream`, `Cancel`, `CancelAll` — it is
delivered verbatim, with no commands forwarded to the dispatcher and no
cancellation signal fired (registry unchanged). -/
theorem c10_sequence_result_verbatim (reg : Registry) (c : Command) (m : Message)
    (h1 : (lookupToken reg c.name).isSome = true) (h2 : c.result = some m) :
    handle_msg reg (some (Message.sequence [c])) = some ⟨reg, [m], []⟩ := by
  obtain ⟨b, hb⟩ := Option.isSome_iff_exists.mp h1
  simp [handle_msg, handle_sequence_cmd, hb, h2]

/-- Witness for C10: a sequence element yielding `CancelAll` delivers the
`CancelAll` verbatim on `msg` — nothing is fired, no acknowledgement is
produced. -/
theorem c10_sequence_result_verbatim_witness :
    handle_msg [("", false)]
      (some (Message.sequence [Command.mk "" (CommandFn.async (some Message.cancelAll))])) =
      some ⟨[("", false)], [Message.cancelAll], []⟩ :=
  c10_sequence_result_verbatim [("", false)]
    (Command.mk "" (CommandFn.async (some Message.cancelAll))) Message.cancelAll rfl rfl

/-- Events recorded by one `handle_update` call: none for a `Quit` message,
one `updateCall` otherwise. -/
theorem handle_update_snd {S W E : Type} (M : ModelSpec S W E) (s : S) (m : Message) :
    (Program.handle_update M s m).2 = if m.isQuit then [] else [Ev.updateCall m] := by
  unfold Program.handle_update
  by_cases hq : m.isQuit = true
  · simp [hq]
  · simp [hq]
    cases M.update s m with
    | error e => simp
    | ok p => simp

/-- A successful `handle_update` returns `Quit` exactly on a `Quit` message. -/
theorem handle_update_ok_quit {S W E : Type} (M : ModelSpec S W E) (s : S) (m : Message)
    (qb : QuitBehavior) (s2 : S) (cs : List Command) (evs : List Ev)
    (h : Program.handle_update M s m = (Except.ok (qb, s2, cs), evs)) :
    (qb = QuitBehavior.Quit ↔ m.isQuit = true) := by
  unfold Program.handle_update at h
  by_cases hq : m.isQuit = true
  · rw [if_pos hq] at h
    simp at h
    simp [hq, ← h.1.1]
  · rw [if_neg hq] at h
    cases hm : M.update s m with
    | error e => rw [hm] at h; simp at h
    | ok p =>
      obtain ⟨s3, c⟩ := p
      rw [hm] at h
      simp at h
      simp [hq, ← h.1.1]

/-- Characterization of a successful drain loop: it applies exactly the
queued messages before the first `Quit`, in FIFO order; it returns `Quit`
exactly when a `Quit` is queued; and on `Continue` it consumed the whole
queue. -/
theorem drain_spec {S W E : Type} (M : ModelSpec S W E) :
    ∀ (q : List Message) (s : S) (qb : QuitBehavior) (s2 : S) (n : Nat)
      (cs : List Command) (evs : List Ev),
      Program.drain M s q = (Except.ok (qb, s2, n, cs), evs) →
      evs = (q.takeWhile fun x => !x.isQuit).map Ev.updateCall ∧
      (qb = QuitBehavior.Quit ↔ q.any Message.isQuit = true) ∧
      (qb = QuitBehavior.Continue → n = q.length) := by
  intro q
  induction q with
  | nil =>
    intro s qb s2 n cs evs h
    simp [Program.drain] at h
    obtain ⟨⟨h1, h2, h3, h4⟩, h5⟩ := h
    simp [← h1, ← h3, ← h5]
  | cons m rest ih =>
    intro s qb s2 n cs evs h
    rcases hh : Program.handle_update M s m with ⟨r1, evs1⟩
    have hevs1 : evs1 = if m.isQuit then [] else [Ev.updateCall m] := by
      have := handle_update_snd M s m
      rw [hh] at this
      exact this
    cases r1 with
    | error e =>
      simp only [Program.drain] at h
      rw [hh] at h
      simp at h
    | ok t =>
      obtain ⟨qb1, s1, cs1⟩ := t
      have hqb1 := handle_update_ok_quit M s m qb1 s1 cs1 evs1 hh
      cases qb1 with
      | Quit =>
        have hq : m.isQuit = true := hqb1.mp rfl
        simp only [Program.drain] at h
        rw [hh] at h
        simp at h
        obtain ⟨⟨e1, e2, e3, e4⟩, e5⟩ := h
        refine ⟨?_, ?_, ?_⟩
        · simp [← e5, hevs1, hq]
        · simp [← e1, hq]
        · intro hqc; rw [← e1] at hqc; cases hqc
      | Continue =>
        have hq : m.isQuit = false := by
          cases hmq : m.isQuit with
          | true => exact absurd (hqb1.mpr hmq) (by simp)
          | false => rfl
        simp only [Program.drain, hh] at h
        rcases hd : Program.drain M s1 rest with ⟨r2, evs2⟩
        cases r2 with
        | error e => simp only [hd] at h; simp at h
        | ok t2 =>
          obtain ⟨qb2, s3, n2, cs2⟩ := t2
          simp only [hd] at h
          simp at h
          obtain ⟨⟨e1, e2, e3, e4⟩, e5⟩ := h
          obtain ⟨ih1, ih2, ih3⟩ := ih s1 qb2 s3 n2 cs2 evs2 hd
          refine ⟨?_, ?_, ?_⟩
          · simp [← e5, hevs1, hq, ih1]
          · rw [← e1]
            simp [hq, ih2]
          · intro hqc
            rw [← e1] at hqc
            rw [← e3, ih3 hqc]
            simp

/-- Characterization of a successful `Program::update` call: it applies
exactly the messages before the first `Quit` among the received message and
the queue, in FIFO order; returns `Quit` exactly when a `Quit` is observed;
and on `Continue` it consumed the whole queue. -/
theorem update_spec {S W E : Type} (M : ModelSpec S W E) (s : S)
    (m : Message) (q : List Message) (qb : QuitBehavior) (s2 : S) (n : Nat)
    (cs : List Command) (evs : List Ev)
    (h : Program.update M s m q = (Except.ok (qb, s2, n, cs), evs)) :
    evs = ((m :: q).takeWhile fun x => !x.isQuit).map Ev.updateCall ∧
    (qb = QuitBehavior.Quit ↔ (m :: q).any Message.isQuit = true) ∧
    (qb = QuitBehavior.Continue → n = q.length) := by
  rcases hh : Program.handle_update M s m with ⟨r1, evs1⟩
  have hevs1 : evs1 = if m.isQuit then [] else [Ev.updateCall m] := by
    have := handle_update_snd M s m
    rw [hh] at this
    exact this
  cases r1 with
  | error e =>
    unfold Program.update at h
    rw [hh] at h
    simp at h
  | ok t =>
    obtain ⟨qb1, s1, cs1⟩ := t
    have hqb1 := handle_update_ok_quit M s m qb1 s1 cs1 evs1 hh
    cases qb1 with
    | Quit =>
      have hq : m.isQuit = true := hqb1.mp rfl
      unfold Program.update at h
      simp only [hh] at h
      simp at h
      obtain ⟨⟨e1, e2, e3, e4⟩, e5⟩ := h
      refine ⟨?_, ?_, ?_⟩
      · simp [← e5, hevs1, hq]
      · simp [← e1, hq]
      · intro hqc; rw [← e1] at hqc; cases hqc
    | Continue =>
      have hq : m.isQuit = false := by
        cases hmq : m.isQuit with
        | true => exact absurd (hqb1.mpr hmq) (by simp)
        | false => rfl
      unfold Program.update at h
      simp only [hh] at h
      rcases hd : Program.drain M s1 q with ⟨r2, evs2⟩
      cases r2 with
      | error e => simp only [hd] at h; simp at h
      | ok t2 =>
        obtain ⟨qb2, s3, n2, cs2⟩ := t2
        simp only [hd] at h
        simp at h
        obtain ⟨⟨e1, e2, e3, e4⟩, e5⟩ := h
        obtain ⟨d1, d2, d3⟩ := drain_spec M q s1 qb2 s3 n2 cs2 evs2 hd
        refine ⟨?_, ?_, ?_⟩
        · simp [← e5, hevs1, hq, d1]
        · rw [← e1]
          simp [hq, d2]
        · intro hqc
          rw [← e1] at hqc
          rw [← e3, d3 hqc]

/-- Claim C5: `Program::update` delivers the received message to the model
(sending any resulting command on the command channel), then drains the
already-queued messages via non-blocking receive in FIFO order; it returns
`Quit` — stopping further draining — as soon as any `Quit` message is
observed, and otherwise returns `Continue` once the queue is empty. -/
theorem c5_update_drains_fifo {S W E : Type} (M : ModelSpec S W E) (s : S)
    (m : Message) (q : List Message) (qb : QuitBehavior) (s2 : S) (n : Nat)
    (cs : List Command) (evs : List Ev)
    (h : Program.update M s m q = (Except.ok (qb, s2, n, cs), evs)) :
    evs = ((m :: q).takeWhile fun x => !x.isQuit).map Ev.updateCall ∧
    (qb = QuitBehavior.Quit ↔ (m :: q).any Message.isQuit = true) ∧
    (qb = QuitBehavior.Continue → n = q.length) :=
  update_spec M s m q qb s2 n cs evs h

/-- Witness for C5 at a concrete model and message queue containing a
`Quit` in third position. -/
theorem c5_update_drains_fifo_witness :
    [Ev.updateCall (Message.custom 1), Ev.updateCall (Message.custom 2)] =
      (([Message.custom 1, Message.custom 2, Message.quit,
          Message.custom 3].takeWhile fun x => !x.isQuit).map Ev.updateCall) ∧
    (QuitBehavior.Quit = QuitBehavior.Quit ↔
      [Message.custom 1, Message.custom 2, Message.quit,
        Message.custom 3].any Message.isQuit = true) ∧
    (QuitBehavior.Quit = QuitBehavior.Continue →
      2 = [Message.custom 2, Message.quit, Message.custom 3].length) :=
  c5_update_drains_fifo tickModel 0 (Message.custom 1)
    [Message.custom 2, Message.quit, Message.custom 3] QuitBehavior.Quit 2 2 []
    [Ev.updateCall (Message.custom 1), Ev.updateCall (Message.custom 2)] rfl

/-- The drain loop never records a model update with a `Quit` message,
whatever its outcome. -/
theorem drain_no_quit_ev {S W E : Type} (M : ModelSpec S W E) :
    ∀ (q : List Message) (s : S)
      (r : Except (ProgramError E) (QuitBehavior × S × Nat × List Command)) (evs : List Ev),
      Program.drain M s q = (r, evs) → Ev.updateCall Message.quit ∉ evs := by
  intro q
  induction q with
  | nil =>
    intro s r evs h
    simp only [Program.drain] at h
    injection h with h1 h2
    subst h2
    simp
  | cons m rest ih =>
    intro s r evs h
    rcases hh : Program.handle_update M s m with ⟨r1, evs1⟩
    have hevs1 : evs1 = if m.isQuit then [] else [Ev.updateCall m] := by
      have := handle_update_snd M s m
      rw [hh] at this
      exact this
    have hno1 : Ev.updateCall Message.quit ∉ evs1 := by
      rw [hevs1]
      by_cases hq : m.isQuit = true
      · simp [hq]
      · have hm : ¬(Message.quit = m) := by
          intro he
          rw [← he] at hq
          exact hq rfl
        simp [hq]
        exact hm
    cases r1 with
    | error e =>
      simp only [Program.drain, hh] at h
      injection h with h1 h2
      subst h2
      exact hno1
    | ok t =>
      obtain ⟨qb1, s1, cs1⟩ := t
      cases qb1 with
      | Quit =>
        simp only [Program.drain, hh] at h
        injection h with h1 h2
        subst h2
        exact hno1
      | Continue =>
        simp only [Program.drain, hh] at h
        rcases hd : Program.drain M s1 rest with ⟨r2, evs2⟩
        simp only [hd] at h
        cases r2 with
        | error e =>
          injection h with h1 h2
          subst h2
          intro hmem
          rcases List.mem_append.mp hmem with hc | hc
          · exact hno1 hc
          · exact ih s1 (Except.error e) evs2 hd hc
        | ok t2 =>
          obtain ⟨qb2, s3, n2, cs2⟩ := t2
          injection h with h1 h2
          subst h2
          intro hmem
          rcases List.mem_append.mp hmem with hc | hc
          · exact hno1 hc
          · exact ih s1 _ evs2 hd hc

/-- `Program::update` never records a model update with a `Quit` message. -/
theorem update_no_quit_ev {S W E : Type} (M : ModelSpec S W E) (s : S) (m : Message)
    (q : List Message)
    (r : Except (ProgramError E) (QuitBehavior × S × Nat × List Command)) (evs : List Ev)
    (h : Program.update M s m q = (r, evs)) : Ev.updateCall Message.quit ∉ evs := by
  rcases hh : Program.handle_update M s m with ⟨r1, evs1⟩
  have hevs1 : evs1 = if m.isQuit then [] else [Ev.updateCall m] := by
    have := handle_update_snd M s m
    rw [hh] at this
    exact this
  have hno1 : Ev.updateCall Message.quit ∉ evs1 := by
    rw [hevs1]
    by_cases hq : m.isQuit = true
    · simp [hq]
    · have hm : ¬(Message.quit = m) := by
        intro he
        rw [← he] at hq
        exact hq rfl
      simp [hq]
      exact hm
  cases r1 with
  | error e =>
    unfold Program.update at h
    simp only [hh] at h
    injection h with h1 h2
    subst h2
    exact hno1
  | ok t =>
    obtain ⟨qb1, s1, cs1⟩ := t
    cases qb1 with
    | Quit =>
      unfold Program.update at h
      simp only [hh] at h
      injection h with h1 h2
      subst h2
      exact hno1
    | Continue =>
      unfold Program.update at h
      simp only [hh] at h
      rcases hd : Program.drain M s1 q with ⟨r2, evs2⟩
      simp only [hd] at h
      cases r2 with
      | error e =>
        injection h with h1 h2
        subst h2
        intro hmem
        rcases List.mem_append.mp hmem with hc | hc
        · exact hno1 hc
        · exact drain_no_quit_ev M q s1 (Except.error e) evs2 hd hc
      | ok t2 =>
        obtain ⟨qb2, s3, n2, cs2⟩ := t2
        injection h with h1 h2
        subst h2
        intro hmem
        rcases List.mem_append.mp hmem with hc | hc
        · exact hno1 hc
        · exact drain_no_quit_ev M q s1 _ evs2 hd hc

/-- Claim C9: the driver never invokes the model's `update` with a `Quit`
message: `handle_update` on `Quit` returns the `Quit` behavior immediately
with no model call, and no trace of `Program::update` contains a model
update call carrying `Quit`. -/
theorem c9_model_never_sees_quit {S W E : Type} (M : ModelSpec S W E) (s : S) :
    Program.handle_update M s Message.quit =
      (Except.ok (QuitBehavior.Quit, s, []), []) ∧
    ∀ (m : Message) (q : List Message)
      (r : Except (ProgramError E) (QuitBehavior × S × Nat × List Command)) (evs : List Ev),
      Program.update M s m q = (r, evs) → Ev.updateCall Message.quit ∉ evs :=
  ⟨rfl, fun m q r evs h => update_no_quit_ev M s m q r evs h⟩

/-- Witness for C9: a concrete `update` call whose trace contains only a
non-`Quit` model update. -/
theorem c9_model_never_sees_quit_witness :
    Ev.updateCall Message.quit ∉ [Ev.updateCall (Message.custom 1)] :=
  (c9_model_never_sees_quit tickModel 0).2 (Message.custom 1) []
    (Except.ok (QuitBehavior.Continue, 1, 0, [])) [Ev.updateCall (Message.custom 1)] rfl

/-- Claim C7: when the model's `init` returns an error, `run` returns
`ApplicationFailure` carrying that error, and its trace shows neither a
`view` nor an `update` call. -/
theorem c7_init_error_aborts {S W E : Type} (M : ModelSpec S W E) (s : S) (w : W)
    (q : List (Message × List Message)) (e : E) (h : M.init s = Except.error e) :
    Program.run M s w q = (Except.error (ProgramError.applicationFailure e), [Ev.initCall]) ∧
    Ev.viewCall ∉ [Ev.initCall] ∧ ∀ m : Message, Ev.updateCall m ∉ [Ev.initCall] := by
  refine ⟨?_, by simp, by simp⟩
  unfold Program.run Program.initStep
  rw [h]

/-- Witness for C7 with a concrete failing model. -/
theorem c7_init_error_aborts_witness :
    Program.run failModel 0 0 [(Message.custom 1, [])] =
      (Except.error (ProgramError.applicationFailure "boom"), [Ev.initCall]) :=
  (c7_init_error_aborts failModel 0 0 [(Message.custom 1, [])] "boom" rfl).1

/-- A successful run loop calls `shutdown` exactly when a `Quit` message is
delivered somewhere in the schedule. -/
theorem runLoop_shutdown_iff {S W E : Type} (M : ModelSpec S W E) :
    ∀ (q : List (Message × List Message)) (s : S) (w : W) (r : S × W) (evs : List Ev),
      Program.runLoop M s w q = (Except.ok r, evs) →
      (Ev.shutdownCall ∈ evs ↔
        (q.any fun p => (p.1 :: p.2).any Message.isQuit) = true) := by
  intro q
  induction q with
  | nil =>
    intro s w r evs h
    simp only [Program.runLoop] at h
    injection h with h1 h2
    subst h2
    simp
  | cons p rest ih =>
    obtain ⟨m, queued⟩ := p
    intro s w r evs h
    rcases hu : Program.update M s m queued with ⟨r1, evs1⟩
    cases r1 with
    | error e =>
      simp only [Program.runLoop, hu] at h
      simp at h
    | ok t =>
      obtain ⟨qb, s2, n, cs⟩ := t
      obtain ⟨u1, u2, u3⟩ := update_spec M s m queued qb s2 n cs evs1 hu
      have hno1 : Ev.shutdownCall ∉ evs1 := by
        rw [u1]
        simp
      cases hv : M.view s2 w with
      | error e2 =>
        simp only [Program.runLoop, hu, hv] at h
        simp at h
      | ok w2 =>
        cases qb with
        | Quit =>
          simp only [Program.runLoop, hu, hv] at h
          simp at h
          obtain ⟨h1, h2⟩ := h
          rw [← h2]
          have hany : (m :: queued).any Message.isQuit = true := u2.mp rfl
          simp only [List.any_cons, Bool.or_eq_true] at hany ⊢
          exact iff_of_true (by simp) (by tauto)
        | Continue =>
          have hnoq : (m :: queued).any Message.isQuit = false := by
            cases ha : (m :: queued).any Message.isQuit with
            | true => exact absurd (u2.mpr ha) (by simp)
            | false => rfl
          simp only [Program.runLoop, hu, hv] at h
          rcases hrl : Program.runLoop M s2 w2 rest with ⟨r2, evs2⟩
          simp only [hrl] at h
          cases r2 with
          | error e2 => simp at h
          | ok r3 =>
            simp at h
            obtain ⟨h1, h2⟩ := h
            rw [← h2]
            have ihh := ih s2 w2 r3 evs2 hrl
            have hnoq2 := hnoq
            simp only [List.any_cons, Bool.or_eq_false_iff] at hnoq2
            simp only [List.any_cons, Bool.or_eq_true] at ihh ⊢
            constructor
            · intro hm
              rcases List.mem_append.mp hm with hc | hc
              · exact absurd hc hno1
              · rcases List.mem_cons.mp hc with hc2 | hc2
                · exact absurd hc2 (by simp)
                · exact Or.inr (ihh.mp hc2)
            · intro hd
              rcases hd with hl | hr
              · exact absurd hl (by simp [hnoq2.1, hnoq2.2])
              · exact List.mem_append.mpr
                  (Or.inr (List.mem_cons.mpr (Or.inr (ihh.mpr hr))))

/-- Counterexample to claim C4: when the message channel closes (no `Quit`
was delivered), `run` exits its loop and returns the model without calling
`shutdown` — the trace of a completed run contains no shutdown call. -/
theorem c4_counterexample :
    Program.run tickModel 0 0 [] = (Except.ok (0, 1), [Ev.initCall, Ev.viewCall]) ∧
    Ev.shutdownCall ∉ [Ev.initCall, Ev.viewCall] :=
  ⟨rfl, by simp⟩

/-- Claim C4 (amended): `run` calls `initialize` and then renders once
before any loop iteration; each iteration receives one message, calls
`update` then renders; and `run` calls `shutdown` before returning the
model exactly when `update` returns `Quit` — when the message channel
closes instead, the loop exits and the model is returned without a
`shutdown` call. -/
theorem c4_amended_run_shutdown {S W E : Type} (M : ModelSpec S W E) (s : S) (w : W)
    (q : List (Message × List Message)) (r : S × W) (evs : List Ev)
    (h : Program.run M s w q = (Except.ok r, evs)) :
    evs.take 2 = [Ev.initCall, Ev.viewCall] ∧
    (Ev.shutdownCall ∈ evs ↔
      (q.any fun p => (p.1 :: p.2).any Message.isQuit) = true) := by
  rcases hi : M.init s with e | p
  · unfold Program.run Program.initStep at h
    rw [hi] at h
    simp at h
  · obtain ⟨s2, c⟩ := p
    unfold Program.run Program.initStep at h
    simp only [hi] at h
    cases hv : M.view s2 w with
    | error e =>
      simp only [hv] at h
      simp at h
    | ok w2 =>
      simp only [hv] at h
      rcases hrl : Program.runLoop M s2 w2 q with ⟨r2, evs2⟩
      simp only [hrl] at h
      cases r2 with
      | error e => simp at h
      | ok r3 =>
        simp at h
        obtain ⟨h1, h2⟩ := h
        have ihh := runLoop_shutdown_iff M q s2 w2 r3 evs2 hrl
        rw [← h2]
        refine ⟨rfl, ?_⟩
        rw [← ihh]
        constructor
        · intro hm
          rcases List.mem_cons.mp hm with hc | hc
          · exact absurd hc (by simp)
          · rcases List.mem_cons.mp hc with hc2 | hc2
            · exact absurd hc2 (by simp)
            · exact hc2
        · intro hm
          exact List.mem_cons.mpr (Or.inr (List.mem_cons.mpr (Or.inr hm)))

/-- Witness for the amended C4: a schedule delivering `Quit` makes the run
shut down, with the shutdown call last in the trace. -/
theorem c4_amended_run_shutdown_witness :
    [Ev.initCall, Ev.viewCall, Ev.viewCall, Ev.shutdownCall].take 2 =
      [Ev.initCall, Ev.viewCall] ∧
    (Ev.shutdownCall ∈ [Ev.initCall, Ev.viewCall, Ev.viewCall, Ev.shutdownCall] ↔
      ([(Message.quit, ([] : List Message))].any
        fun p => (p.1 :: p.2).any Message.isQuit) = true) :=
  c4_amended_run_shutdown tickModel 0 0 [(Message.quit, [])] (0, 2)
    [Ev.initCall, Ev.viewCall, Ev.viewCall, Ev.shutdownCall] rfl
